import Mathlib

/-!
Verification of the hackvm VM-to-assembly translator (src/src/lib.rs,
src/src/main.rs) against its natural-language specification.

The translator is embedded shallowly:
* strings of emitted Hack assembly are represented as lists of parsed
  `Instr` values, transcribed instruction by instruction from the
  `format!` templates in `lib.rs`;
* the `BufWriter` and all file I/O are outside the modelled core (the
  spec excludes them); `VMTranslator` keeps only the translation state
  (`next_jump`, `ret_idx`, `filestem`);
* Rust panics (index out of bounds in `parse`, `panic!` in
  `verify_offset`, in the `Pop Constant` arm and in `to_label`) are
  modelled as `none` / error values of `Option`;
* the `u16` counters and offsets are modelled as `Nat`; the counters are
  only incremented (Rust debug builds abort on `u16` overflow, which in
  `lib.rs` can only happen after 2^16 calls or comparisons in one run),
  while offsets are bounded by 65535 at the parsing boundary exactly as
  `str::parse::<u16>` bounds them.
-/

namespace HackVM

/-! ## Hack assembly syntax

One constructor per shape of line occurring in the strings built by
`write_asm` / `translate_func_call` / `write_prelude`:
`@<number>` and `@<symbol>` (`ASym`), assignments `dest=comp` (`cas`),
conditional jumps `comp;JUMPKIND` (`cjmp`) and label definitions
`(<name>)` (`labelDef`). -/

inductive ASym where
  | num (n : Nat)
  | name (s : String)
deriving DecidableEq, Repr

inductive Dst where
  | A | D | M
deriving DecidableEq, Repr

inductive Comp where
  | zero | negOne | A | D | M
  | Mplus1 | Mminus1 | DplusM | MminusD | DminusA
  | negM | notM | DorM | DandM
deriving DecidableEq, Repr

inductive Jmp where
  | JMP | JEQ | JNE | JLT | JGT
deriving DecidableEq, Repr

inductive Instr where
  | ains (s : ASym)
  | cas (d : Dst) (c : Comp)
  | cjmp (c : Comp) (j : Jmp)
  | labelDef (s : String)
deriving DecidableEq, Repr

/-! ## Data model (lib.rs)

`MemorySegment`, `Command` and the state part of `VMTranslator`. -/

inductive MemorySegment where
  | Local | Argument | This | That | Constant | Static | Temp | Pointer
deriving DecidableEq, Repr

inductive Command where
  | Push (segment : MemorySegment) (offset : Nat)
  | Pop (segment : MemorySegment) (offset : Nat)
  | Add | Sub | Neg
  | Not | Or | And | Eq | Lt | Gt
  | Label (name : String)
  | Goto (name : String)
  | IfGoto (name : String)
  | Function (name : String) (nVars : Nat)
  | Call (name : String) (nArgs : Nat)
  | Return
deriving DecidableEq, Repr

structure VMTranslator where
  next_jump : Nat
  ret_idx : Nat
  filestem : String
deriving DecidableEq, Repr

/-! ## Parser (lib.rs: `parse`, `MemorySegment::from_str`)

Rust's `line.split_whitespace()` is modelled by `words` /`tokens`;
indexing a missing `parts[i]` panics in Rust and is modelled by `none`.
The evaluation order of the Rust code is preserved: `parts[1]` is read
(and may panic) before it is interpreted, a segment parse error is
reported before `parts[2]` is read, and so on. -/

/-- `MemorySegment::from_str` (lib.rs). -/
def MemorySegment.from_str (s : String) : Except String MemorySegment :=
  if s = "local" then .ok .Local
  else if s = "argument" then .ok .Argument
  else if s = "this" then .ok .This
  else if s = "that" then .ok .That
  else if s = "constant" then .ok .Constant
  else if s = "static" then .ok .Static
  else if s = "temp" then .ok .Temp
  else if s = "pointer" then .ok .Pointer
  else .error ("Received unknown memory segment " ++ s)

/-- `str::parse::<u16>` together with `ParseIntError::to_string`, as used
by `parse` via `map_err(|e| e.to_string())`: an optional leading `+`,
then decimal digits accumulated left to right with an overflow check
against 65535, failing on the first non-digit character. -/
def parseU16E (s : String) : Except String Nat :=
  match s.data with
  | [] => .error "cannot parse integer from empty string"
  | c :: cs =>
    let ds := if c = '+' then cs else c :: cs
    if ds.isEmpty then .error "invalid digit found in string"
    else go 0 ds
where
  go (acc : Nat) : List Char → Except String Nat
    | [] => .ok acc
    | d :: ds =>
      if d.isDigit then
        let acc' := acc * 10 + (d.toNat - 48)
        if 65535 < acc' then .error "number too large to fit in target type"
        else go acc' ds
      else .error "invalid digit found in string"

/-- `str::split_whitespace`, on the character list, with an explicit
accumulator for the word being read (structural recursion so that
concrete lines evaluate by `rfl`/`decide`). -/
def wordsAux : List Char → List Char → List (List Char)
  | [], acc => if acc.isEmpty then [] else [acc.reverse]
  | c :: cs, acc =>
    if c.isWhitespace then
      if acc.isEmpty then wordsAux cs [] else acc.reverse :: wordsAux cs []
    else wordsAux cs (c :: acc)

def words (cs : List Char) : List (List Char) := wordsAux cs []

/-- `let parts: Vec<_> = line.split_whitespace().collect();` -/
def tokens (line : String) : List String :=
  (words line.data).map fun cs => String.mk cs

/-- The `push`/`pop` arms of `parse`:
`Command::Push(MemorySegment::from_str(parts[1])?, parts[2].parse::<u16>()...?)`.
A missing `parts[i]` is a panic (`none`); note that Rust evaluates
`from_str(parts[1])?` before indexing `parts[2]`. -/
def parse_seg_cmd (mk : MemorySegment → Nat → Command) :
    List String → Option (Except String Command)
  | [] => none
  | a1 :: rest =>
    match MemorySegment.from_str a1 with
    | .error e => some (.error e)
    | .ok seg =>
      match rest with
      | [] => none
      | a2 :: _ =>
        match parseU16E a2 with
        | .error e => some (.error e)
        | .ok n => some (.ok (mk seg n))

/-- The `function`/`call` arms of `parse`:
`Command::Function(parts[1].to_owned(), parts[2].parse::<u16>()...?)`. -/
def parse_fn_cmd (mk : String → Nat → Command) :
    List String → Option (Except String Command)
  | [] => none
  | a1 :: rest =>
    match rest with
    | [] => none
    | a2 :: _ =>
      match parseU16E a2 with
      | .error e => some (.error e)
      | .ok n => some (.ok (mk a1 n))

/-- `match parts[0] { ... }` of `parse` (lib.rs), on the token list.
`parts[0]` on an empty token list panics (`none`). -/
def parseToks : List String → Option (Except String Command)
  | [] => none
  | t :: args =>
    if t = "push" then parse_seg_cmd Command.Push args
    else if t = "pop" then parse_seg_cmd Command.Pop args
    else if t = "add" then some (.ok .Add)
    else if t = "sub" then some (.ok .Sub)
    else if t = "neg" then some (.ok .Neg)
    else if t = "not" then some (.ok .Not)
    else if t = "or" then some (.ok .Or)
    else if t = "and" then some (.ok .And)
    else if t = "eq" then some (.ok .Eq)
    else if t = "lt" then some (.ok .Lt)
    else if t = "gt" then some (.ok .Gt)
    else if t = "label" then
      match args with
      | a :: _ => some (.ok (.Label a))
      | [] => none
    else if t = "goto" then
      match args with
      | a :: _ => some (.ok (.Goto a))
      | [] => none
    else if t = "if-goto" then
      match args with
      | a :: _ => some (.ok (.IfGoto a))
      | [] => none
    else if t = "function" then parse_fn_cmd Command.Function args
    else if t = "call" then parse_fn_cmd Command.Call args
    else if t = "return" then some (.ok .Return)
    else some (.error ("Unknown command " ++ t))

/-- `pub fn parse(line: &str) -> Result<Command, String>` (lib.rs).
`none` models a panic, `some (.error e)` the `Err(e)` result. -/
def parse (line : String) : Option (Except String Command) :=
  parseToks (tokens line)

/-! ## Offset verification (lib.rs: `Command::verify_offset`)

The Rust function panics on an out-of-range offset and returns `()`
otherwise; it is modelled as a `Bool` (`false` = panic). -/

/-- `Command::verify_offset` (lib.rs). -/
def Command.verify_offset : Command → Bool
  | .Push segment offset | .Pop segment offset =>
    match segment with
    | .Static => decide (offset ≤ 238)    -- `if *offset > 238 { panic! }`, RAM[16-255]
    | .Temp => decide (offset ≤ 7)        -- `if *offset > 7 { panic! }`, RAM[5-12]
    | .Pointer => decide (offset ≤ 1)     -- `if !(0..=1).contains(offset) { panic! }`
    | _ => true
  | _ => true

/-! ## Code emission (lib.rs: `write_asm` and helpers)

Each `format!` template of the source is transcribed into a literal list
of `Instr`, one element per assembly line of the template, in the same
order. -/

/-- `MemorySegment::to_label` (lib.rs). The `_` arm of the source panics
("Shoudln't have come here"); it is unreachable from `write_asm`, which
only calls `to_label` for the four indirect segments, and is given the
dummy value `""` here. -/
def MemorySegment.to_label : MemorySegment → String
  | .Local => "LCL"
  | .Argument => "ARG"
  | .This => "THIS"
  | .That => "THAT"
  | _ => ""

/-- The `Command::Push` arm of `write_asm` (lib.rs). The `filestem`
argument is `self.filestem`, used for the Static symbol
`format!("{}.{}", self.filestem, offset)`. -/
def pushAsm (filestem : String) (segment : MemorySegment) (offset : Nat) :
    List Instr :=
  match segment with
  | .Constant =>
    -- "@{offset}\nD=A\n@SP\nA=M\nM=D\n@SP\nM=M+1\n"
    [.ains (.num offset), .cas .D .A, .ains (.name "SP"), .cas .A .M,
     .cas .M .D, .ains (.name "SP"), .cas .M .Mplus1]
  | .Static =>
    -- "@{static_label}\nD=M\n@SP\nA=M\nM=D\n@SP\nM=M+1\n"
    [.ains (.name (filestem ++ "." ++ toString offset)), .cas .D .M,
     .ains (.name "SP"), .cas .A .M, .cas .M .D, .ains (.name "SP"),
     .cas .M .Mplus1]
  | .Temp =>
    -- "@{5 + offset}\nD=M\n@SP\nA=M\nM=D\n@SP\nM=M+1\n"
    [.ains (.num (5 + offset)), .cas .D .M, .ains (.name "SP"), .cas .A .M,
     .cas .M .D, .ains (.name "SP"), .cas .M .Mplus1]
  | .Pointer =>
    if offset = 0 then
      -- "@THIS\nD=M\n@SP\nA=M\nM=D\n@SP\nM=M+1\n"
      [.ains (.name "THIS"), .cas .D .M, .ains (.name "SP"), .cas .A .M,
       .cas .M .D, .ains (.name "SP"), .cas .M .Mplus1]
    else
      [.ains (.name "THAT"), .cas .D .M, .ains (.name "SP"), .cas .A .M,
       .cas .M .D, .ains (.name "SP"), .cas .M .Mplus1]
  | _ =>
    -- "@{offset}\nD=A\n@{segment.to_label()}\nA=D+M\nD=M\n@SP\nA=M\nM=D\n@SP\nM=M+1\n"
    [.ains (.num offset), .cas .D .A, .ains (.name segment.to_label),
     .cas .A .DplusM, .cas .D .M, .ains (.name "SP"), .cas .A .M,
     .cas .M .D, .ains (.name "SP"), .cas .M .Mplus1]

/-- The `Command::Pop` arm of `write_asm` (lib.rs); the `Constant` arm of
the source is `panic!("Pop operation cannot be performed for a constant")`,
modelled as `none`. -/
def popAsm (filestem : String) (segment : MemorySegment) (offset : Nat) :
    Option (List Instr) :=
  match segment with
  | .Static =>
    -- "@SP\nM=M-1\nA=M\nD=M\n@{static_label}\nM=D\n"
    some [.ains (.name "SP"), .cas .M .Mminus1, .cas .A .M, .cas .D .M,
          .ains (.name (filestem ++ "." ++ toString offset)), .cas .M .D]
  | .Temp =>
    -- "@SP\nM=M-1\nA=M\nD=M\n@{5 + offset}\nM=D\n"
    some [.ains (.name "SP"), .cas .M .Mminus1, .cas .A .M, .cas .D .M,
          .ains (.num (5 + offset)), .cas .M .D]
  | .Pointer =>
    if offset = 0 then
      -- "@SP\nM=M-1\nA=M\nD=M\n@THIS\nM=D\n"
      some [.ains (.name "SP"), .cas .M .Mminus1, .cas .A .M, .cas .D .M,
            .ains (.name "THIS"), .cas .M .D]
    else
      some [.ains (.name "SP"), .cas .M .Mminus1, .cas .A .M, .cas .D .M,
            .ains (.name "THAT"), .cas .M .D]
  | .Constant => none
  | _ =>
    -- "@{segment.to_label()}\nD=M\n@R13\nM=D\n@{offset}\nD=A\n@R13\nM=D+M\n
    --  @SP\nM=M-1\nA=M\nD=M\n@R13\nA=M\nM=D\n"
    some [.ains (.name segment.to_label), .cas .D .M, .ains (.name "R13"),
          .cas .M .D, .ains (.num offset), .cas .D .A, .ains (.name "R13"),
          .cas .M .DplusM, .ains (.name "SP"), .cas .M .Mminus1, .cas .A .M,
          .cas .D .M, .ains (.name "R13"), .cas .A .M, .cas .M .D]

/-- `VMTranslator::jump_labels` (lib.rs):
`("JUMP_START_{next_jump}", "JUMP_END_{next_jump}")`. -/
def jump_labels (st : VMTranslator) : String × String :=
  ("JUMP_START_" ++ toString st.next_jump, "JUMP_END_" ++ toString st.next_jump)

/-- The shared shape of the `Eq`/`Lt`/`Gt` arms of `write_asm` (lib.rs);
the three source templates differ only in the conditional jump
(`D;JEQ` / `D;JLT` / `D;JGT`). -/
def cmpAsm (j : Jmp) (jump_start jump_end : String) : List Instr :=
  -- "@SP\nM=M-1\nA=M\nD=M\n@SP\nM=M-1\nA=M\nD=M-D\n
  --  @{jump_start}\nD;J__\n@SP\nA=M\nM=0\n@{jump_end}\n0;JMP\n
  --  ({jump_start})\n@SP\nA=M\nM=-1\n({jump_end})\n@SP\nM=M+1"
  [.ains (.name "SP"), .cas .M .Mminus1, .cas .A .M, .cas .D .M,
   .ains (.name "SP"), .cas .M .Mminus1, .cas .A .M, .cas .D .MminusD,
   .ains (.name jump_start), .cjmp .D j,
   .ains (.name "SP"), .cas .A .M, .cas .M .zero,
   .ains (.name jump_end), .cjmp .zero .JMP,
   .labelDef jump_start, .ains (.name "SP"), .cas .A .M, .cas .M .negOne,
   .labelDef jump_end, .ains (.name "SP"), .cas .M .Mplus1]

/-- The `Command::Function` arm of `write_asm` (lib.rs): a label, then
`n_local_vars` copies of "@SP\nA=M\nM=0\n@SP\nM=M+1\n". -/
def functionAsm (name : String) (n_local_vars : Nat) : List Instr :=
  .labelDef name ::
    (List.replicate n_local_vars
      [Instr.ains (.name "SP"), .cas .A .M, .cas .M .zero,
       .ains (.name "SP"), .cas .M .Mplus1]).flatten

/-- The `Command::Return` arm of `write_asm` (lib.rs), transcribed from
its single `format!` template. -/
def returnAsm : List Instr :=
  [ -- "@LCL\nD=M\n@R13\nM=D\n"
   .ains (.name "LCL"), .cas .D .M, .ains (.name "R13"), .cas .M .D,
   -- "@5\nD=D-A\nA=D\nD=M\n@R14\nM=D\n"
   .ains (.num 5), .cas .D .DminusA, .cas .A .D, .cas .D .M,
   .ains (.name "R14"), .cas .M .D,
   -- "@SP\nM=M-1\nA=M\nD=M\n@ARG\nA=M\nM=D\n"
   .ains (.name "SP"), .cas .M .Mminus1, .cas .A .M, .cas .D .M,
   .ains (.name "ARG"), .cas .A .M, .cas .M .D,
   -- "@ARG\nD=M+1\n@SP\nM=D\n"
   .ains (.name "ARG"), .cas .D .Mplus1, .ains (.name "SP"), .cas .M .D,
   -- "@R13\nD=M\n@1\nD=D-A\nA=D\nD=M\n@THAT\nM=D\n"
   .ains (.name "R13"), .cas .D .M, .ains (.num 1), .cas .D .DminusA,
   .cas .A .D, .cas .D .M, .ains (.name "THAT"), .cas .M .D,
   -- "@R13\nD=M\n@2\nD=D-A\nA=D\nD=M\n@THIS\nM=D\n"
   .ains (.name "R13"), .cas .D .M, .ains (.num 2), .cas .D .DminusA,
   .cas .A .D, .cas .D .M, .ains (.name "THIS"), .cas .M .D,
   -- "@R13\nD=M\n@3\nD=D-A\nA=D\nD=M\n@ARG\nM=D\n"
   .ains (.name "R13"), .cas .D .M, .ains (.num 3), .cas .D .DminusA,
   .cas .A .D, .cas .D .M, .ains (.name "ARG"), .cas .M .D,
   -- "@R13\nD=M\n@4\nD=D-A\nA=D\nD=M\n@LCL\nM=D\n"
   .ains (.name "R13"), .cas .D .M, .ains (.num 4), .cas .D .DminusA,
   .cas .A .D, .cas .D .M, .ains (.name "LCL"), .cas .M .D,
   -- "@R14\nA=M\n0;JMP\n"
   .ains (.name "R14"), .cas .A .M, .cjmp .zero .JMP]

/-- `VMTranslator::translate_func_call` (lib.rs). Returns the emitted
block together with the updated translator state
(`self.ret_idx += 1`). The four segment pushes mirror the
`["LCL", "ARG", "THIS", "THAT"].iter().for_each(...)` accumulation. -/
def translate_func_call (st : VMTranslator) (func_name : String)
    (n_args : Nat) : List Instr × VMTranslator :=
  let ret_addr := func_name ++ "$ret." ++ toString st.ret_idx
  -- "@{ret_addr}\nD=A\n@SP\nA=M\nM=D\n@SP\nM=M+1\n"
  let call_asm := [Instr.ains (.name ret_addr), .cas .D .A,
    .ains (.name "SP"), .cas .A .M, .cas .M .D, .ains (.name "SP"),
    .cas .M .Mplus1]
  -- per segment: "@{segment}\nD=M\n@SP\nA=M\nM=D\n@SP\nM=M+1\n"
  let call_asm := ["LCL", "ARG", "THIS", "THAT"].foldl
    (fun acc segment => acc ++
      [Instr.ains (.name segment), .cas .D .M, .ains (.name "SP"),
       .cas .A .M, .cas .M .D, .ains (.name "SP"), .cas .M .Mplus1])
    call_asm
  -- "@SP\nD=M\n@LCL\nM=D\n"
  let call_asm := call_asm ++ [Instr.ains (.name "SP"), .cas .D .M,
    .ains (.name "LCL"), .cas .M .D]
  -- "@SP\nD=M\n@{n_args}\nD=D-A\n@5\nD=D-A\n@ARG\nM=D\n"
  let call_asm := call_asm ++ [Instr.ains (.name "SP"), .cas .D .M,
    .ains (.num n_args), .cas .D .DminusA, .ains (.num 5), .cas .D .DminusA,
    .ains (.name "ARG"), .cas .M .D]
  -- "@{func_name}\n0;JMP\n"
  let call_asm := call_asm ++ [Instr.ains (.name func_name), .cjmp .zero .JMP]
  -- "({ret_addr})\n"
  let call_asm := call_asm ++ [Instr.labelDef ret_addr]
  (call_asm, { st with ret_idx := st.ret_idx + 1 })

/-- `VMTranslator::write_asm` (lib.rs). `command.verify_offset()` runs
first (its panic is the `none` branch); `none` also models the panic of
the `Pop Constant` arm. Returns the emitted block and the updated
translator state. -/
def write_asm (st : VMTranslator) (command : Command) :
    Option (List Instr × VMTranslator) :=
  if command.verify_offset then
    match command with
    | .Push segment offset => some (pushAsm st.filestem segment offset, st)
    | .Pop segment offset =>
      match popAsm st.filestem segment offset with
      | none => none
      | some is => some (is, st)
    | .Add =>
      -- "@SP\nM=M-1\nA=M\nD=M\n@SP\nM=M-1\nA=M\nM=D+M\n@SP\nM=M+1\n"
      some ([.ains (.name "SP"), .cas .M .Mminus1, .cas .A .M, .cas .D .M,
             .ains (.name "SP"), .cas .M .Mminus1, .cas .A .M, .cas .M .DplusM,
             .ains (.name "SP"), .cas .M .Mplus1], st)
    | .Sub =>
      -- "@SP\nM=M-1\nA=M\nD=M\n@SP\nM=M-1\nA=M\nM=M-D\n@SP\nM=M+1\n"
      some ([.ains (.name "SP"), .cas .M .Mminus1, .cas .A .M, .cas .D .M,
             .ains (.name "SP"), .cas .M .Mminus1, .cas .A .M, .cas .M .MminusD,
             .ains (.name "SP"), .cas .M .Mplus1], st)
    | .Neg =>
      -- "@SP\nM=M-1\nA=M\nM=-M\n@SP\nM=M+1\n"
      some ([.ains (.name "SP"), .cas .M .Mminus1, .cas .A .M, .cas .M .negM,
             .ains (.name "SP"), .cas .M .Mplus1], st)
    | .Not =>
      -- "@SP\nM=M-1\nA=M\nM=!M\n@SP\nM=M+1\n"
      some ([.ains (.name "SP"), .cas .M .Mminus1, .cas .A .M, .cas .M .notM,
             .ains (.name "SP"), .cas .M .Mplus1], st)
    | .Or =>
      -- "@SP\nM=M-1\nA=M\nD=M\n@SP\nM=M-1\nA=M\nM=D|M\n@SP\nM=M+1\n"
      some ([.ains (.name "SP"), .cas .M .Mminus1, .cas .A .M, .cas .D .M,
             .ains (.name "SP"), .cas .M .Mminus1, .cas .A .M, .cas .M .DorM,
             .ains (.name "SP"), .cas .M .Mplus1], st)
    | .And =>
      some ([.ains (.name "SP"), .cas .M .Mminus1, .cas .A .M, .cas .D .M,
             .ains (.name "SP"), .cas .M .Mminus1, .cas .A .M, .cas .M .DandM,
             .ains (.name "SP"), .cas .M .Mplus1], st)
    | .Eq =>
      let (jump_start, jump_end) := jump_labels st
      some (cmpAsm .JEQ jump_start jump_end,
            { st with next_jump := st.next_jump + 1 })
    | .Lt =>
      let (jump_start, jump_end) := jump_labels st
      some (cmpAsm .JLT jump_start jump_end,
            { st with next_jump := st.next_jump + 1 })
    | .Gt =>
      let (jump_start, jump_end) := jump_labels st
      some (cmpAsm .JGT jump_start jump_end,
            { st with next_jump := st.next_jump + 1 })
    | .Function name n_local_vars => some (functionAsm name n_local_vars, st)
    | .Call func_name n_args => some (translate_func_call st func_name n_args)
    | .Return => some (returnAsm, st)
    | .Label label => some ([.labelDef label], st)
    | .Goto label =>
      -- "@{label}\n0;JMP\n"
      some ([.ains (.name label), .cjmp .zero .JMP], st)
    | .IfGoto label =>
      -- "@SP\nM=M-1\nA=M\nD=M\n@{label}\nD;JNE\n"
      some ([.ains (.name "SP"), .cas .M .Mminus1, .cas .A .M, .cas .D .M,
             .ains (.name label), .cjmp .D .JNE], st)
  else none

/-- `VMTranslator::write_prelude` (lib.rs): "@256\nD=A\n@SP\nM=D\n\n"
followed by `translate_func_call("Sys.init", 0)`. -/
def write_prelude (st : VMTranslator) : List Instr × VMTranslator :=
  ([.ains (.num 256), .cas .D .A, .ains (.name "SP"), .cas .M .D] ++
     (translate_func_call st "Sys.init" 0).1,
   (translate_func_call st "Sys.init" 0).2)

/-! ## Driver loop (main.rs: `write_file_asm`) -/

/-- `str::trim` (as used on each source line in main.rs): leading and
trailing whitespace removed. -/
def str_trim (s : String) : String :=
  String.mk
    (((s.data.dropWhile Char.isWhitespace).reverse.dropWhile
        Char.isWhitespace).reverse)

/-- `line.starts_with("//")` (main.rs). -/
def isCommentLine : String → Bool
  | ⟨'/' :: '/' :: _⟩ => true
  | _ => false

/-- The body of `write_file_asm` (main.rs) on an enumerated list of
source lines, `n` being the 0-based index of the first line of the list.
`none` models a panic inside `parse` or `write_asm`; `some (.error e)`
models the early `return Err(...)` with
`format!("Error at line {}: {}", n + 1, err)`. -/
def writeLines (st : VMTranslator) (n : Nat) :
    List String → Option (Except String VMTranslator)
  | [] => some (.ok st)
  | l :: rest =>
    let line := str_trim l
    if line.isEmpty || isCommentLine line then writeLines st (n + 1) rest
    else
      match parse line with
      | none => none
      | some (.error err) =>
        some (.error ("Error at line " ++ toString (n + 1) ++ ": " ++ err))
      | some (.ok command) =>
        match write_asm st command with
        | none => none
        | some (_, st') => writeLines st' (n + 1) rest

/-- `str::lines` on the character list: pieces split at `'\n'`, a final
piece only when nonempty (so a trailing newline yields no extra empty
line, and `""` yields no lines), as Rust's `lines()` behaves on
`'\n'`-separated text (`'\r'` stripping for Windows line endings is not
modelled). -/
def linesAux : List Char → List Char → List (List Char)
  | [], acc => if acc.isEmpty then [] else [acc.reverse]
  | c :: cs, acc =>
    if c = '\n' then acc.reverse :: linesAux cs []
    else linesAux cs (c :: acc)

def str_lines (content : String) : List String :=
  (linesAux content.data []).map fun cs => String.mk cs

/-- `write_file_asm` (main.rs): iterate over `content.lines()`. -/
def write_file_asm (st : VMTranslator) (content : String) :
    Option (Except String VMTranslator) :=
  writeLines st 0 (str_lines content)

/-- The state threading of `writeLines` along lines that translate
without incident: `some st'` exactly when every line of the list is
skipped (blank/comment) or parses and translates successfully. -/
def linesOk (st : VMTranslator) : List String → Option VMTranslator
  | [] => some st
  | l :: rest =>
    let line := str_trim l
    if line.isEmpty || isCommentLine line then linesOk st rest
    else
      match parse line with
      | some (.ok command) =>
        match write_asm st command with
        | some (_, st') => linesOk st' rest
        | none => none
      | _ => none

/-! ## Run-level bookkeeping used by the label-uniqueness claims -/

/-- Label definitions `( ... )` occurring in an emitted block. -/
def labelDefs (is : List Instr) : List String :=
  is.filterMap fun i =>
    match i with
    | .labelDef s => some s
    | _ => none

/-- 1 for a `Call` command, 0 otherwise. -/
def callCount : Command → Nat
  | .Call _ _ => 1
  | _ => 0

/-- 1 for a comparison command (`Eq`/`Lt`/`Gt`), 0 otherwise. -/
def cmpCount : Command → Nat
  | .Eq | .Lt | .Gt => 1
  | _ => 0

/-- The `ret_idx` values consumed by the `Call` commands of a run, in
translation order, threading the translator state through `write_asm`
(a panic stops the run): one occurrence of the current `ret_idx` per
`Call` command (`callCount c = 1` for `Call`, 0 otherwise). -/
def callIdxs (st : VMTranslator) : List Command → List Nat
  | [] => []
  | c :: rest =>
    match write_asm st c with
    | none => []
    | some (_, st') =>
      List.replicate (callCount c) st.ret_idx ++ callIdxs st' rest

/-- The `next_jump` values consumed by the comparison commands of a run,
in translation order. -/
def jumpIdxs (st : VMTranslator) : List Command → List Nat
  | [] => []
  | c :: rest =>
    match write_asm st c with
    | none => []
    | some (_, st') =>
      List.replicate (cmpCount c) st.next_jump ++ jumpIdxs st' rest

/-! ## Hack machine semantics

A straight-line interpreter for the jump-free fragments emitted for
`Push`/`Pop` (those blocks contain no jump and no label). The target
machine is the 16-bit Hack computer: registers `A` and `D`, RAM
addressed by `A`, all values taken modulo 2^16 = 65536. Symbols are
resolved by an environment `env : String → Nat`; the Hack assembler
fixes `SP = 0`, `LCL = 1`, `ARG = 2`, `THIS = 3`, `THAT = 4`,
`R13 = 13`, `R14 = 14`. -/

structure Mach where
  A : Nat
  D : Nat
  ram : Nat → Nat

/-- Value of a computation field; every result is reduced mod 2^16. -/
def evalComp (st : Mach) : Comp → Nat
  | .zero => 0
  | .negOne => 65535
  | .A => st.A % 65536
  | .D => st.D % 65536
  | .M => st.ram st.A % 65536
  | .Mplus1 => (st.ram st.A + 1) % 65536
  | .Mminus1 => (st.ram st.A + 65535) % 65536
  | .DplusM => (st.D + st.ram st.A) % 65536
  | .MminusD => (st.ram st.A % 65536 + 65536 - st.D % 65536) % 65536
  | .DminusA => (st.D % 65536 + 65536 - st.A % 65536) % 65536
  | .negM => (65536 - st.ram st.A % 65536) % 65536
  | .notM => 65535 - st.ram st.A % 65536
  | .DorM => Nat.lor (st.D % 65536) (st.ram st.A % 65536)
  | .DandM => Nat.land (st.D % 65536) (st.ram st.A % 65536)

/-- Store a value into a destination; `M` writes `ram` at address `A`. -/
def setDst (st : Mach) (v : Nat) : Dst → Mach
  | .A => { st with A := v }
  | .D => { st with D := v }
  | .M => { st with ram := fun i => if i = st.A then v else st.ram i }

/-- One instruction. Jumps and label definitions do not occur in the
blocks this interpreter is applied to (push/pop code is straight-line);
they leave the state unchanged. -/
def exec (env : String → Nat) (st : Mach) : Instr → Mach
  | .ains (.num n) => { st with A := n % 65536 }
  | .ains (.name s) => { st with A := env s % 65536 }
  | .cas d c => setDst st (evalComp st c) d
  | .cjmp _ _ => st
  | .labelDef _ => st

def execList (env : String → Nat) (st : Mach) (is : List Instr) : Mach :=
  is.foldl (exec env) st

/-- The physical address a `Push`/`Pop` of `(segment, offset)` reads or
writes, in machine state `st` (the indirect segments go through their
base registers). -/
def seg_target (env : String → Nat) (filestem : String) (st : Mach)
    (segment : MemorySegment) (offset : Nat) : Nat :=
  match segment with
  | .Local => (offset + st.ram 1) % 65536
  | .Argument => (offset + st.ram 2) % 65536
  | .This => (offset + st.ram 3) % 65536
  | .That => (offset + st.ram 4) % 65536
  | .Static => env (filestem ++ "." ++ toString offset) % 65536
  | .Temp => 5 + offset
  | .Pointer => if offset = 0 then 3 else 4
  | .Constant => 0

/-- The documented offset bounds of the spec (§3 Invariants), together
with the `u16` bound that the parser imposes on the offsets of the four
indirect segments; `Constant` is excluded (`Pop` is never valid against
it). -/
def in_bounds : MemorySegment → Nat → Prop
  | .Temp, offset => offset ≤ 7
  | .Pointer, offset => offset ≤ 1
  | .Static, offset => offset ≤ 238
  | .Constant, _ => False
  | _, offset => offset < 65536

/-- The symbol addresses fixed by the Hack assembler. -/
def std_env (env : String → Nat) : Prop :=
  env "SP" = 0 ∧ env "LCL" = 1 ∧ env "ARG" = 2 ∧ env "THIS" = 3 ∧
    env "THAT" = 4 ∧ env "R13" = 13 ∧ env "R14" = 14

/-! ## Spec-side descriptions

These definitions follow the wording of the specification (§4.6 and the
claims), to be compared with the source-side emission functions
above. -/

/-- The return-address label `<name>$ret.<k>` of spec §4.6. -/
def ret_label (func_name : String) (k : Nat) : String :=
  func_name ++ "$ret." ++ toString k

/-- Spec §4.6 Call step (1): push the return-address label. -/
def callPushRetAddr (ret_addr : String) : List Instr :=
  [.ains (.name ret_addr), .cas .D .A, .ains (.name "SP"), .cas .A .M,
   .cas .M .D, .ains (.name "SP"), .cas .M .Mplus1]

/-- Spec §4.6 Call step (2): push one segment base register. -/
def callPushSegBase (segment : String) : List Instr :=
  [.ains (.name segment), .cas .D .M, .ains (.name "SP"), .cas .A .M,
   .cas .M .D, .ains (.name "SP"), .cas .M .Mplus1]

/-- Spec §4.6 Call step (3): reposition the Local base register to the
current stack top. -/
def callSetLclToSp : List Instr :=
  [.ains (.name "SP"), .cas .D .M, .ains (.name "LCL"), .cas .M .D]

/-- Spec §4.6 Call step (4): set the Argument base register to
(current stack pointer − `n_args` − 5). -/
def callSetArgBase (n_args : Nat) : List Instr :=
  [.ains (.name "SP"), .cas .D .M, .ains (.num n_args), .cas .D .DminusA,
   .ains (.num 5), .cas .D .DminusA, .ains (.name "ARG"), .cas .M .D]

/-- Spec §4.6 Call step (5): unconditional jump to the function's
label. -/
def callGotoFunc (func_name : String) : List Instr :=
  [.ains (.name func_name), .cjmp .zero .JMP]

/-- Spec §4.6 Return step (1): capture the current Local base into the
first scratch register. -/
def retCaptureLcl : List Instr :=
  [.ains (.name "LCL"), .cas .D .M, .ains (.name "R13"), .cas .M .D]

/-- Spec §4.6 Return step (2): load the word at (saved Local − 5) — the
return address — into the second scratch register. -/
def retLoadRetAddr : List Instr :=
  [.ains (.num 5), .cas .D .DminusA, .cas .A .D, .cas .D .M,
   .ains (.name "R14"), .cas .M .D]

/-- Spec §4.6 Return step (3): move the stack top into the slot
addressed by the Argument base register. -/
def retMoveResult : List Instr :=
  [.ains (.name "SP"), .cas .M .Mminus1, .cas .A .M, .cas .D .M,
   .ains (.name "ARG"), .cas .A .M, .cas .M .D]

/-- Spec §4.6 Return step (4): set the stack pointer to one past the
slot addressed by the Argument base register. -/
def retSetSp : List Instr :=
  [.ains (.name "ARG"), .cas .D .Mplus1, .ains (.name "SP"), .cas .M .D]

/-- Spec §4.6 Return step (5): restore one base register from the word
`i` below the captured saved-Local value. -/
def retRestoreSeg (segment : String) (i : Nat) : List Instr :=
  [.ains (.name "R13"), .cas .D .M, .ains (.num i), .cas .D .DminusA,
   .cas .A .D, .cas .D .M, .ains (.name segment), .cas .M .D]

/-- Spec §4.6 Return step (6): unconditional jump to the captured return
address. -/
def retJumpBack : List Instr :=
  [.ains (.name "R14"), .cas .A .M, .cjmp .zero .JMP]

/-- The mnemonics recognized by `parse` (spec §6 input grammar). -/
def mnemonics : List String :=
  ["push", "pop", "add", "sub", "neg", "not", "or", "and", "eq", "lt",
   "gt", "label", "goto", "if-goto", "function", "call", "return"]

/-- The parse result is a returned `ParseError`. -/
def hasErr (o : Option (Except String Command)) : Prop :=
  ∃ e, o = some (.error e)

/-- A concrete symbol environment satisfying `std_env` (witnesses). -/
def env0 : String → Nat := fun s =>
  if s = "SP" then 0 else if s = "LCL" then 1 else if s = "ARG" then 2
  else if s = "THIS" then 3 else if s = "THAT" then 4
  else if s = "R13" then 13 else if s = "R14" then 14 else 16

/-- A concrete machine state (witnesses): stack pointer at 256. -/
def mach0 : Mach :=
  { A := 0, D := 0, ram := fun i => if i = 0 then 256 else 7 }

/-- A concrete translator state (witnesses). -/
def tst0 : VMTranslator := { next_jump := 0, ret_idx := 0, filestem := "Main" }

/-! ## Theorems -/

/-- C1: the assembly block emitted for `Call(name, argCount)` consists,
in this order, of: a push of the freshly allocated return-address label,
pushes of the four segment base registers in the order Local, Argument,
This, That, setting the Local base register to the current stack
pointer, setting the Argument base register to (stack pointer −
argCount − 5), an unconditional jump to the called function's label,
and the definition of the return-address label; the call-site counter
advances by one. -/
theorem call_block_structure (st : VMTranslator) (func_name : String)
    (n_args : Nat) :
    translate_func_call st func_name n_args =
      (callPushRetAddr (ret_label func_name st.ret_idx) ++
        callPushSegBase "LCL" ++ callPushSegBase "ARG" ++
        callPushSegBase "THIS" ++ callPushSegBase "THAT" ++
        callSetLclToSp ++ callSetArgBase n_args ++
        callGotoFunc func_name ++
        [.labelDef (ret_label func_name st.ret_idx)],
       { st with ret_idx := st.ret_idx + 1 }) := rfl

/-- C2: the assembly emitted for `Return` first captures the Local base
into the first scratch register, then loads the return address from
(saved Local − 5) into the second scratch register, then moves the stack
top into the slot addressed by the Argument base and sets the stack
pointer one past it, then restores the base registers in the order That,
This, Argument, Local from offsets 1, 2, 3, 4 below the captured
saved-Local value, and ends with an unconditional jump to the captured
return address. -/
theorem return_block_structure (st : VMTranslator) :
    write_asm st .Return =
      some (retCaptureLcl ++ retLoadRetAddr ++ retMoveResult ++ retSetSp ++
        retRestoreSeg "THAT" 1 ++ retRestoreSeg "THIS" 2 ++
        retRestoreSeg "ARG" 3 ++ retRestoreSeg "LCL" 4 ++ retJumpBack,
        st) := rfl

/-- C7: translating a `Push`/`Pop` whose offset is out of the documented
bound for Temp (>7), Pointer (>1) or Static (>238) is rejected (the
translator panics, modelled as `none`), while every in-bound offset for
those segments is accepted. -/
theorem offset_bounds (st : VMTranslator) (offset : Nat) :
    (8 ≤ offset → write_asm st (.Push .Temp offset) = none ∧
                  write_asm st (.Pop .Temp offset) = none) ∧
    (offset ≤ 7 → (write_asm st (.Push .Temp offset)).isSome ∧
                  (write_asm st (.Pop .Temp offset)).isSome) ∧
    (2 ≤ offset → write_asm st (.Push .Pointer offset) = none ∧
                  write_asm st (.Pop .Pointer offset) = none) ∧
    (offset ≤ 1 → (write_asm st (.Push .Pointer offset)).isSome ∧
                  (write_asm st (.Pop .Pointer offset)).isSome) ∧
    (239 ≤ offset → write_asm st (.Push .Static offset) = none ∧
                    write_asm st (.Pop .Static offset) = none) ∧
    (offset ≤ 238 → (write_asm st (.Push .Static offset)).isSome ∧
                    (write_asm st (.Pop .Static offset)).isSome) := by
  refine ⟨fun h => ⟨?_, ?_⟩, fun h => ⟨?_, ?_⟩, fun h => ⟨?_, ?_⟩,
    fun h => ⟨?_, ?_⟩, fun h => ⟨?_, ?_⟩, fun h => ⟨?_, ?_⟩⟩
  · simp only [write_asm,
      show (Command.Push .Temp offset).verify_offset = decide (offset ≤ 7)
        from rfl]
    rw [if_neg]; simp only [decide_eq_true_eq]; omega
  · simp only [write_asm,
      show (Command.Pop .Temp offset).verify_offset = decide (offset ≤ 7)
        from rfl]
    rw [if_neg]; simp only [decide_eq_true_eq]; omega
  · simp only [write_asm,
      show (Command.Push .Temp offset).verify_offset = decide (offset ≤ 7)
        from rfl]
    rw [if_pos (by simp only [decide_eq_true_eq]; omega)]; rfl
  · simp only [write_asm,
      show (Command.Pop .Temp offset).verify_offset = decide (offset ≤ 7)
        from rfl]
    rw [if_pos (by simp only [decide_eq_true_eq]; omega)]; rfl
  · simp only [write_asm,
      show (Command.Push .Pointer offset).verify_offset = decide (offset ≤ 1)
        from rfl]
    rw [if_neg]; simp only [decide_eq_true_eq]; omega
  · simp only [write_asm,
      show (Command.Pop .Pointer offset).verify_offset = decide (offset ≤ 1)
        from rfl]
    rw [if_neg]; simp only [decide_eq_true_eq]; omega
  · simp only [write_asm,
      show (Command.Push .Pointer offset).verify_offset = decide (offset ≤ 1)
        from rfl]
    rw [if_pos (by simp only [decide_eq_true_eq]; omega)]
    by_cases h0 : offset = 0 <;> simp [pushAsm, h0]
  · simp only [write_asm,
      show (Command.Pop .Pointer offset).verify_offset = decide (offset ≤ 1)
        from rfl]
    rw [if_pos (by simp only [decide_eq_true_eq]; omega)]
    by_cases h0 : offset = 0 <;> simp [popAsm, h0]
  · simp only [write_asm,
      show (Command.Push .Static offset).verify_offset = decide (offset ≤ 238)
        from rfl]
    rw [if_neg]; simp only [decide_eq_true_eq]; omega
  · simp only [write_asm,
      show (Command.Pop .Static offset).verify_offset = decide (offset ≤ 238)
        from rfl]
    rw [if_neg]; simp only [decide_eq_true_eq]; omega
  · simp only [write_asm,
      show (Command.Push .Static offset).verify_offset = decide (offset ≤ 238)
        from rfl]
    rw [if_pos (by simp only [decide_eq_true_eq]; omega)]; rfl
  · simp only [write_asm,
      show (Command.Pop .Static offset).verify_offset = decide (offset ≤ 238)
        from rfl]
    rw [if_pos (by simp only [decide_eq_true_eq]; omega)]; rfl

/-- Witness for `offset_bounds` at the offsets named by the claim
(Temp 8, Pointer 2, Static 239 rejected; 7, 1, 238 accepted). -/
theorem offset_bounds_witness :
    write_asm tst0 (.Push .Temp 8) = none ∧
    (write_asm tst0 (.Push .Temp 7)).isSome ∧
    write_asm tst0 (.Pop .Pointer 2) = none ∧
    (write_asm tst0 (.Pop .Pointer 1)).isSome ∧
    write_asm tst0 (.Push .Static 239) = none ∧
    (write_asm tst0 (.Pop .Static 238)).isSome :=
  ⟨((offset_bounds tst0 8).1 (by omega)).1,
   ((offset_bounds tst0 7).2.1 (by omega)).1,
   ((offset_bounds tst0 2).2.2.1 (by omega)).2,
   ((offset_bounds tst0 1).2.2.2.1 (by omega)).2,
   ((offset_bounds tst0 239).2.2.2.2.1 (by omega)).1,
   ((offset_bounds tst0 238).2.2.2.2.2 (by omega)).2⟩

/-- C8: translating `Pop` against `Constant` is rejected (the source arm
panics, modelled as `none`) for every offset, while `Push` against
`Constant` is accepted. -/
theorem pop_constant_rejected (st : VMTranslator) (offset : Nat) :
    write_asm st (.Pop .Constant offset) = none ∧
    (write_asm st (.Push .Constant offset)).isSome := by
  constructor <;> simp [write_asm, Command.verify_offset, popAsm]

/-- Helper for C10: `split_whitespace` of an all-whitespace character
list yields no tokens. -/
theorem wordsAux_all_ws (cs : List Char)
    (h : ∀ c ∈ cs, c.isWhitespace = true) : wordsAux cs [] = [] := by
  induction cs with
  | nil => rfl
  | cons c cs ih =>
    simp only [wordsAux, h c (List.mem_cons_self c cs), if_true,
      List.isEmpty_nil]
    exact ih fun d hd => h d (List.mem_cons_of_mem c hd)

/-- C10: on a line consisting only of whitespace (including the empty
line) the token list is empty and `parse` panics when indexing
`parts[0]` (modelled as `none`) instead of returning an error result. -/
theorem whitespace_only_panics (line : String)
    (h : ∀ c ∈ line.data, c.isWhitespace = true) :
    tokens line = [] ∧ parse line = none := by
  have ht : tokens line = [] := by
    simp [tokens, words, wordsAux_all_ws line.data h]
  exact ⟨ht, by simp [parse, ht, parseToks]⟩

/-- Witness for `whitespace_only_panics` on the line `" "`. -/
theorem whitespace_only_panics_witness :
    tokens " " = [] ∧ parse " " = none :=
  whitespace_only_panics " " (by decide)

/-- Helper: `write_asm` advances `ret_idx` exactly by `callCount` (1 on
`Call`, 0 otherwise) and `next_jump` exactly by `cmpCount` (1 on a
comparison, 0 otherwise). -/
theorem write_asm_counters (st : VMTranslator) (c : Command)
    (p : List Instr × VMTranslator) (h : write_asm st c = some p) :
    p.2.ret_idx = st.ret_idx + callCount c ∧
    p.2.next_jump = st.next_jump + cmpCount c := by
  cases c <;>
    simp only [write_asm, Command.verify_offset, translate_func_call,
      jump_labels] at h <;>
    (try split at h) <;> (try split at h) <;>
    (cases h <;> exact ⟨rfl, rfl⟩)

/-- Helper: the call-site indices consumed by a run form a contiguous
initial range starting at the current `ret_idx`. -/
theorem callIdxs_eq_range' (cmds : List Command) :
    ∀ st : VMTranslator, ∃ k, callIdxs st cmds = List.range' st.ret_idx k := by
  induction cmds with
  | nil => exact fun st => ⟨0, rfl⟩
  | cons c rest ih =>
    intro st
    cases hw : write_asm st c with
    | none => exact ⟨0, by simp [callIdxs, hw]⟩
    | some p =>
      obtain ⟨k, hk⟩ := ih p.2
      have hr := (write_asm_counters st c p hw).1
      have hcc : callCount c = 0 ∨ callCount c = 1 := by
        cases c <;> simp [callCount]
      rcases hcc with hcc | hcc
      · refine ⟨k, ?_⟩
        simp only [callIdxs, hw, hcc, List.replicate_zero, List.nil_append]
        rw [hk, hr, hcc, Nat.add_zero]
      · refine ⟨k + 1, ?_⟩
        simp only [callIdxs, hw, hcc, List.replicate_one,
          List.singleton_append]
        rw [List.range'_succ, hk, hr, hcc]

/-- Helper: the jump indices consumed by a run form a contiguous initial
range starting at the current `next_jump`. -/
theorem jumpIdxs_eq_range' (cmds : List Command) :
    ∀ st : VMTranslator,
      ∃ k, jumpIdxs st cmds = List.range' st.next_jump k := by
  induction cmds with
  | nil => exact fun st => ⟨0, rfl⟩
  | cons c rest ih =>
    intro st
    cases hw : write_asm st c with
    | none => exact ⟨0, by simp [jumpIdxs, hw]⟩
    | some p =>
      obtain ⟨k, hk⟩ := ih p.2
      have hr := (write_asm_counters st c p hw).2
      have hcc : cmpCount c = 0 ∨ cmpCount c = 1 := by
        cases c <;> simp [cmpCount]
      rcases hcc with hcc | hcc
      · refine ⟨k, ?_⟩
        simp only [jumpIdxs, hw, hcc, List.replicate_zero, List.nil_append]
        rw [hk, hr, hcc, Nat.add_zero]
      · refine ⟨k + 1, ?_⟩
        simp only [jumpIdxs, hw, hcc, List.replicate_one,
          List.singleton_append]
        rw [List.range'_succ, hk, hr, hcc]

/-- C3: each `Call(name, argCount)` emits exactly one return-address
label definition, of the form `<name>$ret.<k>` with `k` the current
call-site counter; the counter advances exactly once per `Call` (and
only on `Call`s); across a run — including a run opened by the
bootstrap's `Call` (`write_prelude`) — the consumed suffixes are
pairwise distinct, so repeated or recursive calls to the same function
get distinct labels. -/
theorem call_labels_unique :
    (∀ (st : VMTranslator) (f : String) (n : Nat),
        labelDefs (translate_func_call st f n).1 = [ret_label f st.ret_idx] ∧
        (translate_func_call st f n).2.ret_idx = st.ret_idx + 1) ∧
    (∀ (st : VMTranslator) (c : Command) (p : List Instr × VMTranslator),
        write_asm st c = some p → p.2.ret_idx = st.ret_idx + callCount c) ∧
    (∀ (st : VMTranslator) (cmds : List Command),
        (callIdxs st cmds).Pairwise (· ≠ ·)) ∧
    (∀ (st : VMTranslator) (cmds : List Command),
        (st.ret_idx :: callIdxs (write_prelude st).2 cmds).Pairwise
          (· ≠ ·)) := by
  refine ⟨fun st f n => ⟨rfl, rfl⟩,
    fun st c p h => (write_asm_counters st c p h).1, ?_, ?_⟩
  · intro st cmds
    obtain ⟨k, hk⟩ := callIdxs_eq_range' cmds st
    rw [hk]
    exact List.nodup_range' ..
  · intro st cmds
    obtain ⟨k, hk⟩ := callIdxs_eq_range' cmds (write_prelude st).2
    rw [hk]
    refine List.Pairwise.cons ?_ (List.nodup_range' ..)
    intro x hx
    have h1 := (List.mem_range'_1.mp hx).1
    have h2 : (write_prelude st).2.ret_idx = st.ret_idx + 1 := rfl
    rw [h2] at h1
    omega

/-- Witness for `call_labels_unique`: the counter conjunct applied to
the concrete call `call Foo 1` in the initial translator state. -/
theorem call_labels_unique_witness :
    (translate_func_call tst0 "Foo" 1).2.ret_idx =
      tst0.ret_idx + callCount (.Call "Foo" 1) :=
  call_labels_unique.2.1 tst0 (.Call "Foo" 1)
    (translate_func_call tst0 "Foo" 1) rfl

/-- C4: each comparison (`Eq`/`Lt`/`Gt`) emits exactly the two label
definitions `JUMP_START_n` and `JUMP_END_n` sharing the current
counter value `n`, and advances the jump counter by one (and only
comparisons advance it); across a run the consumed indices are pairwise
distinct and strictly increase in translation order. -/
theorem cmp_labels_unique :
    (∀ st : VMTranslator,
        (write_asm st .Eq).map (fun p => (labelDefs p.1, p.2.next_jump)) =
          some (["JUMP_START_" ++ toString st.next_jump,
                 "JUMP_END_" ++ toString st.next_jump],
                st.next_jump + 1) ∧
        (write_asm st .Lt).map (fun p => (labelDefs p.1, p.2.next_jump)) =
          some (["JUMP_START_" ++ toString st.next_jump,
                 "JUMP_END_" ++ toString st.next_jump],
                st.next_jump + 1) ∧
        (write_asm st .Gt).map (fun p => (labelDefs p.1, p.2.next_jump)) =
          some (["JUMP_START_" ++ toString st.next_jump,
                 "JUMP_END_" ++ toString st.next_jump],
                st.next_jump + 1)) ∧
    (∀ (st : VMTranslator) (c : Command) (p : List Instr × VMTranslator),
        write_asm st c = some p →
          p.2.next_jump = st.next_jump + cmpCount c) ∧
    (∀ (st : VMTranslator) (cmds : List Command),
        (jumpIdxs st cmds).Pairwise (· < ·)) := by
  refine ⟨fun st => ⟨rfl, rfl, rfl⟩,
    fun st c p h => (write_asm_counters st c p h).2, ?_⟩
  intro st cmds
  obtain ⟨k, hk⟩ := jumpIdxs_eq_range' cmds st
  rw [hk]
  exact List.pairwise_lt_range' ..

/-- Witness for `cmp_labels_unique`: the counter conjunct applied to a
concrete `Eq` in the initial translator state. -/
theorem cmp_labels_unique_witness :
    ({ tst0 with next_jump := 1 } : VMTranslator).next_jump =
      tst0.next_jump + cmpCount .Eq :=
  cmp_labels_unique.2.1 tst0 .Eq
    (cmpAsm .JEQ "JUMP_START_0" "JUMP_END_0",
      { tst0 with next_jump := 1 }) rfl

/-- Helper for C6: the `push`/`pop` arms return an error exactly when a
segment token is present but unrecognized, or the segment is recognized
and an offset token is present but fails to parse as `u16` (a missing
token is a panic, not an error; extra tokens are ignored). -/
theorem parse_seg_cmd_err_iff (mk : MemorySegment → Nat → Command)
    (args : List String) :
    hasErr (parse_seg_cmd mk args) ↔
      (∃ a1 rest, args = a1 :: rest ∧
        ((∃ e, MemorySegment.from_str a1 = .error e) ∨
         (∃ seg, MemorySegment.from_str a1 = .ok seg ∧
           ∃ a2 rest2, rest = a2 :: rest2 ∧
             ∃ e, parseU16E a2 = .error e))) := by
  cases args with
  | nil =>
    constructor
    · rintro ⟨e, h⟩; exact absurd h (by simp [parse_seg_cmd])
    · rintro ⟨a1, rest, h, -⟩; cases h
  | cons a1 rest =>
    cases hseg : MemorySegment.from_str a1 with
    | error e =>
      have hl : parse_seg_cmd mk (a1 :: rest) = some (.error e) := by
        simp [parse_seg_cmd, hseg]
      constructor
      · exact fun _ => ⟨a1, rest, rfl, Or.inl ⟨e, hseg⟩⟩
      · exact fun _ => ⟨e, hl⟩
    | ok seg =>
      cases rest with
      | nil =>
        have hl : parse_seg_cmd mk [a1] = none := by
          simp [parse_seg_cmd, hseg]
        constructor
        · rintro ⟨e, h⟩; rw [hl] at h; cases h
        · rintro ⟨a1', rest', heq, hd⟩
          cases heq
          rcases hd with ⟨e, he⟩ | ⟨seg', -, a2, rest2, h2, -⟩
          · rw [hseg] at he; cases he
          · cases h2
      | cons a2 rest2 =>
        cases hn : parseU16E a2 with
        | error e =>
          have hl : parse_seg_cmd mk (a1 :: a2 :: rest2) = some (.error e) := by
            simp [parse_seg_cmd, hseg, hn]
          constructor
          · exact fun _ =>
              ⟨a1, a2 :: rest2, rfl, Or.inr ⟨seg, hseg, a2, rest2, rfl, e, hn⟩⟩
          · exact fun _ => ⟨e, hl⟩
        | ok n =>
          have hl : parse_seg_cmd mk (a1 :: a2 :: rest2) =
              some (.ok (mk seg n)) := by
            simp [parse_seg_cmd, hseg, hn]
          constructor
          · rintro ⟨e, h⟩; rw [hl] at h; cases h
          · rintro ⟨a1', rest', heq, hd⟩
            cases heq
            rcases hd with ⟨e, he⟩ | ⟨seg', -, a2', rest2', h2, e, he⟩
            · rw [hseg] at he; cases he
            · cases h2
              rw [hn] at he; cases he

/-- Helper for C6: the `function`/`call` arms return an error exactly
when both argument tokens are present and the numeric one fails to
parse as `u16`. -/
theorem parse_fn_cmd_err_iff (mk : String → Nat → Command)
    (args : List String) :
    hasErr (parse_fn_cmd mk args) ↔
      (∃ a1 a2 rest2, args = a1 :: a2 :: rest2 ∧
        ∃ e, parseU16E a2 = .error e) := by
  cases args with
  | nil =>
    constructor
    · rintro ⟨e, h⟩; cases h
    · rintro ⟨a1, a2, rest2, h, -⟩; cases h
  | cons a1 rest =>
    cases rest with
    | nil =>
      constructor
      · rintro ⟨e, h⟩; cases h
      · rintro ⟨a1', a2', rest2', h, -⟩; cases h
    | cons a2 rest2 =>
      cases hn : parseU16E a2 with
      | error e =>
        have hl : parse_fn_cmd mk (a1 :: a2 :: rest2) = some (.error e) := by
          simp [parse_fn_cmd, hn]
        constructor
        · exact fun _ => ⟨a1, a2, rest2, rfl, e, hn⟩
        · exact fun _ => ⟨e, hl⟩
      | ok n =>
        have hl : parse_fn_cmd mk (a1 :: a2 :: rest2) =
            some (.ok (mk a1 n)) := by
          simp [parse_fn_cmd, hn]
        constructor
        · rintro ⟨e, h⟩; rw [hl] at h; cases h
        · rintro ⟨a1', a2', rest2', heq, e, he⟩
          cases heq
          rw [hn] at he; cases he

/-- Helper for C6: full characterization of the returned errors of
`parse` on a nonempty token list. -/
theorem parseToks_cons_err_iff (t : String) (args : List String) :
    hasErr (parseToks (t :: args)) ↔
      (t ∉ mnemonics ∨
       ((t = "push" ∨ t = "pop") ∧
         ∃ a1 rest, args = a1 :: rest ∧
           ((∃ e, MemorySegment.from_str a1 = .error e) ∨
            (∃ seg, MemorySegment.from_str a1 = .ok seg ∧
              ∃ a2 rest2, rest = a2 :: rest2 ∧
                ∃ e, parseU16E a2 = .error e))) ∨
       ((t = "function" ∨ t = "call") ∧
         ∃ a1 a2 rest2, args = a1 :: a2 :: rest2 ∧
           ∃ e, parseU16E a2 = .error e)) := by
  by_cases h1 : t = "push"
  · subst h1
    rw [show parseToks ("push" :: args) = parse_seg_cmd Command.Push args from rfl,
      parse_seg_cmd_err_iff]
    constructor
    · intro hx; exact Or.inr (Or.inl ⟨Or.inl rfl, hx⟩)
    · rintro (hm | ⟨-, hx⟩ | ⟨hf, -⟩)
      · exact absurd (by decide) hm
      · exact hx
      · rcases hf with hf | hf <;> exact absurd hf (by decide)
  by_cases h2 : t = "pop"
  · subst h2
    rw [show parseToks ("pop" :: args) = parse_seg_cmd Command.Pop args from rfl,
      parse_seg_cmd_err_iff]
    constructor
    · intro hx; exact Or.inr (Or.inl ⟨Or.inr rfl, hx⟩)
    · rintro (hm | ⟨-, hx⟩ | ⟨hf, -⟩)
      · exact absurd (by decide) hm
      · exact hx
      · rcases hf with hf | hf <;> exact absurd hf (by decide)
  by_cases h3 : t = "add"
  · subst h3
    have hl : parseToks ("add" :: args) = some (.ok .Add) := rfl
    constructor
    · rintro ⟨e, he⟩; rw [hl] at he; cases he
    · rintro (hm | ⟨hf, -⟩ | ⟨hf, -⟩)
      · exact absurd (by decide) hm
      · rcases hf with hf | hf <;> exact absurd hf (by decide)
      · rcases hf with hf | hf <;> exact absurd hf (by decide)
  by_cases h4 : t = "sub"
  · subst h4
    have hl : parseToks ("sub" :: args) = some (.ok .Sub) := rfl
    constructor
    · rintro ⟨e, he⟩; rw [hl] at he; cases he
    · rintro (hm | ⟨hf, -⟩ | ⟨hf, -⟩)
      · exact absurd (by decide) hm
      · rcases hf with hf | hf <;> exact absurd hf (by decide)
      · rcases hf with hf | hf <;> exact absurd hf (by decide)
  by_cases h5 : t = "neg"
  · subst h5
    have hl : parseToks ("neg" :: args) = some (.ok .Neg) := rfl
    constructor
    · rintro ⟨e, he⟩; rw [hl] at he; cases he
    · rintro (hm | ⟨hf, -⟩ | ⟨hf, -⟩)
      · exact absurd (by decide) hm
      · rcases hf with hf | hf <;> exact absurd hf (by decide)
      · rcases hf with hf | hf <;> exact absurd hf (by decide)
  by_cases h6 : t = "not"
  · subst h6
    have hl : parseToks ("not" :: args) = some (.ok .Not) := rfl
    constructor
    · rintro ⟨e, he⟩; rw [hl] at he; cases he
    · rintro (hm | ⟨hf, -⟩ | ⟨hf, -⟩)
      · exact absurd (by decide) hm
      · rcases hf with hf | hf <;> exact absurd hf (by decide)
      · rcases hf with hf | hf <;> exact absurd hf (by decide)
  by_cases h7 : t = "or"
  · subst h7
    have hl : parseToks ("or" :: args) = some (.ok .Or) := rfl
    constructor
    · rintro ⟨e, he⟩; rw [hl] at he; cases he
    · rintro (hm | ⟨hf, -⟩ | ⟨hf, -⟩)
      · exact absurd (by decide) hm
      · rcases hf with hf | hf <;> exact absurd hf (by decide)
      · rcases hf with hf | hf <;> exact absurd hf (by decide)
  by_cases h8 : t = "and"
  · subst h8
    have hl : parseToks ("and" :: args) = some (.ok .And) := rfl
    constructor
    · rintro ⟨e, he⟩; rw [hl] at he; cases he
    · rintro (hm | ⟨hf, -⟩ | ⟨hf, -⟩)
      · exact absurd (by decide) hm
      · rcases hf with hf | hf <;> exact absurd hf (by decide)
      · rcases hf with hf | hf <;> exact absurd hf (by decide)
  by_cases h9 : t = "eq"
  · subst h9
    have hl : parseToks ("eq" :: args) = some (.ok .Eq) := rfl
    constructor
    · rintro ⟨e, he⟩; rw [hl] at he; cases he
    · rintro (hm | ⟨hf, -⟩ | ⟨hf, -⟩)
      · exact absurd (by decide) hm
      · rcases hf with hf | hf <;> exact absurd hf (by decide)
      · rcases hf with hf | hf <;> exact absurd hf (by decide)
  by_cases h10 : t = "lt"
  · subst h10
    have hl : parseToks ("lt" :: args) = some (.ok .Lt) := rfl
    constructor
    · rintro ⟨e, he⟩; rw [hl] at he; cases he
    · rintro (hm | ⟨hf, -⟩ | ⟨hf, -⟩)
      · exact absurd (by decide) hm
      · rcases hf with hf | hf <;> exact absurd hf (by decide)
      · rcases hf with hf | hf <;> exact absurd hf (by decide)
  by_cases h11 : t = "gt"
  · subst h11
    have hl : parseToks ("gt" :: args) = some (.ok .Gt) := rfl
    constructor
    · rintro ⟨e, he⟩; rw [hl] at he; cases he
    · rintro (hm | ⟨hf, -⟩ | ⟨hf, -⟩)
      · exact absurd (by decide) hm
      · rcases hf with hf | hf <;> exact absurd hf (by decide)
      · rcases hf with hf | hf <;> exact absurd hf (by decide)
  by_cases h12 : t = "label"
  · subst h12
    cases args with
    | nil =>
      have hl : parseToks ["label"] = none := rfl
      constructor
      · rintro ⟨e, he⟩; rw [hl] at he; cases he
      · rintro (hm | ⟨hf, -⟩ | ⟨hf, -⟩)
        · exact absurd (by decide) hm
        · rcases hf with hf | hf <;> exact absurd hf (by decide)
        · rcases hf with hf | hf <;> exact absurd hf (by decide)
    | cons a rest =>
      have hl : parseToks ("label" :: a :: rest) = some (.ok (.Label a)) := rfl
      constructor
      · rintro ⟨e, he⟩; rw [hl] at he; cases he
      · rintro (hm | ⟨hf, -⟩ | ⟨hf, -⟩)
        · exact absurd (by decide) hm
        · rcases hf with hf | hf <;> exact absurd hf (by decide)
        · rcases hf with hf | hf <;> exact absurd hf (by decide)
  by_cases h13 : t = "goto"
  · subst h13
    cases args with
    | nil =>
      have hl : parseToks ["goto"] = none := rfl
      constructor
      · rintro ⟨e, he⟩; rw [hl] at he; cases he
      · rintro (hm | ⟨hf, -⟩ | ⟨hf, -⟩)
        · exact absurd (by decide) hm
        · rcases hf with hf | hf <;> exact absurd hf (by decide)
        · rcases hf with hf | hf <;> exact absurd hf (by decide)
    | cons a rest =>
      have hl : parseToks ("goto" :: a :: rest) = some (.ok (.Goto a)) := rfl
      constructor
      · rintro ⟨e, he⟩; rw [hl] at he; cases he
      · rintro (hm | ⟨hf, -⟩ | ⟨hf, -⟩)
        · exact absurd (by decide) hm
        · rcases hf with hf | hf <;> exact absurd hf (by decide)
        · rcases hf with hf | hf <;> exact absurd hf (by decide)
  by_cases h14 : t = "if-goto"
  · subst h14
    cases args with
    | nil =>
      have hl : parseToks ["if-goto"] = none := rfl
      constructor
      · rintro ⟨e, he⟩; rw [hl] at he; cases he
      · rintro (hm | ⟨hf, -⟩ | ⟨hf, -⟩)
        · exact absurd (by decide) hm
        · rcases hf with hf | hf <;> exact absurd hf (by decide)
        · rcases hf with hf | hf <;> exact absurd hf (by decide)
    | cons a rest =>
      have hl : parseToks ("if-goto" :: a :: rest) = some (.ok (.IfGoto a)) := rfl
      constructor
      · rintro ⟨e, he⟩; rw [hl] at he; cases he
      · rintro (hm | ⟨hf, -⟩ | ⟨hf, -⟩)
        · exact absurd (by decide) hm
        · rcases hf with hf | hf <;> exact absurd hf (by decide)
        · rcases hf with hf | hf <;> exact absurd hf (by decide)
  by_cases h15 : t = "function"
  · subst h15
    rw [show parseToks ("function" :: args) = parse_fn_cmd Command.Function args from rfl,
      parse_fn_cmd_err_iff]
    constructor
    · intro hx; exact Or.inr (Or.inr ⟨Or.inl rfl, hx⟩)
    · rintro (hm | ⟨hf, -⟩ | ⟨-, hx⟩)
      · exact absurd (by decide) hm
      · rcases hf with hf | hf <;> exact absurd hf (by decide)
      · exact hx
  by_cases h16 : t = "call"
  · subst h16
    rw [show parseToks ("call" :: args) = parse_fn_cmd Command.Call args from rfl,
      parse_fn_cmd_err_iff]
    constructor
    · intro hx; exact Or.inr (Or.inr ⟨Or.inr rfl, hx⟩)
    · rintro (hm | ⟨hf, -⟩ | ⟨-, hx⟩)
      · exact absurd (by decide) hm
      · rcases hf with hf | hf <;> exact absurd hf (by decide)
      · exact hx
  by_cases h17 : t = "return"
  · subst h17
    have hl : parseToks ("return" :: args) = some (.ok .Return) := rfl
    constructor
    · rintro ⟨e, he⟩; rw [hl] at he; cases he
    · rintro (hm | ⟨hf, -⟩ | ⟨hf, -⟩)
      · exact absurd (by decide) hm
      · rcases hf with hf | hf <;> exact absurd hf (by decide)
      · rcases hf with hf | hf <;> exact absurd hf (by decide)
  have hl : parseToks (t :: args) =
      some (.error ("Unknown command " ++ t)) := by
    simp only [parseToks]
    rw [if_neg h1, if_neg h2, if_neg h3, if_neg h4, if_neg h5, if_neg h6, if_neg h7, if_neg h8, if_neg h9, if_neg h10, if_neg h11, if_neg h12, if_neg h13, if_neg h14, if_neg h15, if_neg h16, if_neg h17]
  constructor
  · exact fun _ => Or.inl (by simp [mnemonics, h1, h2, h3, h4, h5, h6, h7, h8, h9, h10, h11, h12, h13, h14, h15, h16, h17])
  · exact fun _ => ⟨"Unknown command " ++ t, hl⟩

/-- C6 (amended): `parse` returns a `ParseError` exactly when the line
has at least one token and either the mnemonic is unrecognized, or (for
`push`/`pop`) a present segment token is unrecognized, or the segment is
recognized and a present offset token does not parse as an unsigned
16-bit integer, or (for `function`/`call`) both argument tokens are
present and the count does not parse as `u16`. Missing arguments panic
(`none`) instead, and extra arguments never cause an error. -/
theorem parse_error_iff (line : String) :
    hasErr (parse line) ↔
      (∃ t args, tokens line = t :: args ∧
        (t ∉ mnemonics ∨
         ((t = "push" ∨ t = "pop") ∧
           ∃ a1 rest, args = a1 :: rest ∧
             ((∃ e, MemorySegment.from_str a1 = .error e) ∨
              (∃ seg, MemorySegment.from_str a1 = .ok seg ∧
                ∃ a2 rest2, rest = a2 :: rest2 ∧
                  ∃ e, parseU16E a2 = .error e))) ∨
         ((t = "function" ∨ t = "call") ∧
           ∃ a1 a2 rest2, args = a1 :: a2 :: rest2 ∧
             ∃ e, parseU16E a2 = .error e))) := by
  rcases hts : tokens line with _ | ⟨t, args⟩ <;> rw [parse, hts]
  · constructor
    · rintro ⟨e, he⟩; cases he
    · rintro ⟨t, args, heq, -⟩; cases heq
  · rw [parseToks_cons_err_iff]
    constructor
    · intro h; exact ⟨t, args, rfl, h⟩
    · rintro ⟨t2, args2, heq, hd⟩; cases heq; exact hd

/-- Witness for `parse_error_iff`: the line `push bogus 3` (unknown
segment) is a returned error. -/
theorem parse_error_iff_witness : hasErr (parse "push bogus 3") :=
  (parse_error_iff "push bogus 3").mpr
    ⟨"push", ["bogus", "3"], rfl,
      Or.inr (Or.inl ⟨Or.inl rfl, "bogus", ["3"], rfl,
        Or.inl ⟨"Received unknown memory segment bogus", rfl⟩⟩)⟩

/-- Counterexample to C6 as stated: an extra argument does not produce a
`ParseError` — `parse "add bogus"` ignores the extra token and returns
the `Add` command. -/
theorem extra_arg_not_error :
    parse "add bogus" = some (.ok .Add) ∧ ¬ hasErr (parse "add bogus") := by
  refine ⟨rfl, ?_⟩
  rintro ⟨e, he⟩
  rw [show parse "add bogus" = some (.ok .Add) from rfl] at he
  cases he

/-- Helper for C9: lines that translate without incident only advance
the line counter and the translator state. -/
theorem writeLines_append (pre : List String) :
    ∀ (st st1 : VMTranslator), linesOk st pre = some st1 →
      ∀ (n : Nat) (suf : List String),
        writeLines st n (pre ++ suf) = writeLines st1 (n + pre.length) suf := by
  induction pre with
  | nil =>
    intro st st1 hpre n suf
    cases hpre
    rfl
  | cons l rest ih =>
    intro st st1 hpre n suf
    rw [List.cons_append]
    have harith : n + (l :: rest).length = (n + 1) + rest.length := by
      simp only [List.length_cons]; omega
    rw [harith]
    simp only [linesOk] at hpre
    by_cases hs : ((str_trim l).isEmpty || isCommentLine (str_trim l)) = true
    · simp only [hs, if_true] at hpre
      simp only [writeLines, hs, if_true]
      exact ih st st1 hpre (n + 1) suf
    · have hs' : ((str_trim l).isEmpty || isCommentLine (str_trim l)) = false := by
        revert hs; cases ((str_trim l).isEmpty || isCommentLine (str_trim l)) <;> simp
      simp only [hs', Bool.false_eq_true, if_false] at hpre
      simp only [writeLines, hs', Bool.false_eq_true, if_false]
      cases hp : parse (str_trim l) with
      | none =>
        simp only [hp] at hpre
        cases hpre
      | some r =>
        cases r with
        | error e =>
          simp only [hp] at hpre
          cases hpre
        | ok command =>
          simp only [hp] at hpre ⊢
          cases hw : write_asm st command with
          | none =>
            simp only [hw] at hpre
            cases hpre
          | some p =>
            obtain ⟨is, st'⟩ := p
            simp only [hw] at hpre ⊢
            exact ih st' st1 hpre (n + 1) suf

/-- C9 (amended): the first erroneous line aborts the whole run as an
error result — the outcome does not depend on the lines after it — and
the reported error is exactly `Error at line <n>: <err>` with `n` the
1-based index of that line; the active file identifier is not part of
the report (see the counterexample), and range/semantic errors abort by
panic instead (`write_asm` returning `none` propagates as `none`). -/
theorem first_error_aborts (st st1 : VMTranslator) (content : String)
    (pre suf : List String) (l e : String)
    (hcontent : str_lines content = pre ++ l :: suf)
    (hpre : linesOk st pre = some st1)
    (h1 : (str_trim l).isEmpty = false)
    (h2 : isCommentLine (str_trim l) = false)
    (he : parse (str_trim l) = some (.error e)) :
    write_file_asm st content =
      some (.error ("Error at line " ++ toString (pre.length + 1) ++
        ": " ++ e)) := by
  rw [write_file_asm, hcontent,
    writeLines_append pre st st1 hpre 0 (l :: suf)]
  simp only [writeLines, h1, h2, Bool.or_self, Bool.false_eq_true, if_false,
    he, Nat.zero_add]

/-- Witness for `first_error_aborts` on a concrete three-line file whose
second line is unparsable. -/
theorem first_error_aborts_witness :
    write_file_asm tst0 "add\nfoo\nsub" =
      some (.error "Error at line 2: Unknown command foo") :=
  first_error_aborts tst0 tst0 "add\nfoo\nsub" ["add"] ["sub"] "foo"
    "Unknown command foo" rfl rfl rfl rfl rfl

/-- Counterexample to C9 as stated: the reported error does not carry
the active file identifier. With file stem `"Main"`, the run over the
single line `foo` reports `"Error at line 1: Unknown command foo"`, a
string in which the character `M` (hence the file identifier) does not
occur. -/
theorem error_without_file_id :
    tst0.filestem = "Main" ∧
    write_file_asm tst0 "foo" =
      some (.error "Error at line 1: Unknown command foo") ∧
    ¬ ('M' ∈ "Error at line 1: Unknown command foo".data) :=
  ⟨rfl, rfl, by decide⟩

/-- Helper for C5: the push/pop round trip through the indirect segment
Local (base register RAM[1]). -/
theorem pushpop_local (env : String → Nat) (fs : String) (offset : Nat)
    (st : Mach) (hb : offset < 65536) (e0 : env "SP" = 0)
    (eI : env "LCL" = 1) (e13 : env "R13" = 13)
    (hsp : 16 ≤ st.ram 0) (hram : ∀ i, st.ram i < 65536) :
    (execList env (execList env st (pushAsm fs .Local offset))
        ((popAsm fs .Local offset).getD [])).ram
        ((offset + st.ram 1) % 65536) =
      st.ram ((offset + st.ram 1) % 65536) ∧
    (execList env (execList env st (pushAsm fs .Local offset))
        ((popAsm fs .Local offset).getD [])).ram 0 = st.ram 0 := by
  have h0 := hram 0
  have hI := hram 1
  have ha := hram ((offset + st.ram 1) % 65536)
  have hoffm : offset % 65536 = offset := Nat.mod_eq_of_lt hb
  have hs : st.ram 0 % 65536 = st.ram 0 := Nat.mod_eq_of_lt h0
  have hIm : st.ram 1 % 65536 = st.ram 1 := Nat.mod_eq_of_lt hI
  have ham : st.ram ((offset + st.ram 1) % 65536) % 65536 =
      st.ram ((offset + st.ram 1) % 65536) := Nat.mod_eq_of_lt ha
  simp [pushAsm, popAsm, execList, exec, evalComp, setDst,
    MemorySegment.to_label, e0, eI, e13, hoffm, hs, hIm, ham,
    Nat.mod_add_mod]
  constructor <;> split_ifs <;>
    first
      | omega
      | (simp_all <;> omega)

/-- Helper for C5: the push/pop round trip through the indirect segment
Argument (base register RAM[2]). -/
theorem pushpop_argument (env : String → Nat) (fs : String) (offset : Nat)
    (st : Mach) (hb : offset < 65536) (e0 : env "SP" = 0)
    (eI : env "ARG" = 2) (e13 : env "R13" = 13)
    (hsp : 16 ≤ st.ram 0) (hram : ∀ i, st.ram i < 65536) :
    (execList env (execList env st (pushAsm fs .Argument offset))
        ((popAsm fs .Argument offset).getD [])).ram
        ((offset + st.ram 2) % 65536) =
      st.ram ((offset + st.ram 2) % 65536) ∧
    (execList env (execList env st (pushAsm fs .Argument offset))
        ((popAsm fs .Argument offset).getD [])).ram 0 = st.ram 0 := by
  have h0 := hram 0
  have hI := hram 2
  have ha := hram ((offset + st.ram 2) % 65536)
  have hoffm : offset % 65536 = offset := Nat.mod_eq_of_lt hb
  have hs : st.ram 0 % 65536 = st.ram 0 := Nat.mod_eq_of_lt h0
  have hIm : st.ram 2 % 65536 = st.ram 2 := Nat.mod_eq_of_lt hI
  have ham : st.ram ((offset + st.ram 2) % 65536) % 65536 =
      st.ram ((offset + st.ram 2) % 65536) := Nat.mod_eq_of_lt ha
  simp [pushAsm, popAsm, execList, exec, evalComp, setDst,
    MemorySegment.to_label, e0, eI, e13, hoffm, hs, hIm, ham,
    Nat.mod_add_mod]
  constructor <;> split_ifs <;>
    first
      | omega
      | (simp_all <;> omega)

/-- Helper for C5: the push/pop round trip through the indirect segment
This (base register RAM[3]). -/
theorem pushpop_this (env : String → Nat) (fs : String) (offset : Nat)
    (st : Mach) (hb : offset < 65536) (e0 : env "SP" = 0)
    (eI : env "THIS" = 3) (e13 : env "R13" = 13)
    (hsp : 16 ≤ st.ram 0) (hram : ∀ i, st.ram i < 65536) :
    (execList env (execList env st (pushAsm fs .This offset))
        ((popAsm fs .This offset).getD [])).ram
        ((offset + st.ram 3) % 65536) =
      st.ram ((offset + st.ram 3) % 65536) ∧
    (execList env (execList env st (pushAsm fs .This offset))
        ((popAsm fs .This offset).getD [])).ram 0 = st.ram 0 := by
  have h0 := hram 0
  have hI := hram 3
  have ha := hram ((offset + st.ram 3) % 65536)
  have hoffm : offset % 65536 = offset := Nat.mod_eq_of_lt hb
  have hs : st.ram 0 % 65536 = st.ram 0 := Nat.mod_eq_of_lt h0
  have hIm : st.ram 3 % 65536 = st.ram 3 := Nat.mod_eq_of_lt hI
  have ham : st.ram ((offset + st.ram 3) % 65536) % 65536 =
      st.ram ((offset + st.ram 3) % 65536) := Nat.mod_eq_of_lt ha
  simp [pushAsm, popAsm, execList, exec, evalComp, setDst,
    MemorySegment.to_label, e0, eI, e13, hoffm, hs, hIm, ham,
    Nat.mod_add_mod]
  constructor <;> split_ifs <;>
    first
      | omega
      | (simp_all <;> omega)

/-- Helper for C5: the push/pop round trip through the indirect segment
That (base register RAM[4]). -/
theorem pushpop_that (env : String → Nat) (fs : String) (offset : Nat)
    (st : Mach) (hb : offset < 65536) (e0 : env "SP" = 0)
    (eI : env "THAT" = 4) (e13 : env "R13" = 13)
    (hsp : 16 ≤ st.ram 0) (hram : ∀ i, st.ram i < 65536) :
    (execList env (execList env st (pushAsm fs .That offset))
        ((popAsm fs .That offset).getD [])).ram
        ((offset + st.ram 4) % 65536) =
      st.ram ((offset + st.ram 4) % 65536) ∧
    (execList env (execList env st (pushAsm fs .That offset))
        ((popAsm fs .That offset).getD [])).ram 0 = st.ram 0 := by
  have h0 := hram 0
  have hI := hram 4
  have ha := hram ((offset + st.ram 4) % 65536)
  have hoffm : offset % 65536 = offset := Nat.mod_eq_of_lt hb
  have hs : st.ram 0 % 65536 = st.ram 0 := Nat.mod_eq_of_lt h0
  have hIm : st.ram 4 % 65536 = st.ram 4 := Nat.mod_eq_of_lt hI
  have ham : st.ram ((offset + st.ram 4) % 65536) % 65536 =
      st.ram ((offset + st.ram 4) % 65536) := Nat.mod_eq_of_lt ha
  simp [pushAsm, popAsm, execList, exec, evalComp, setDst,
    MemorySegment.to_label, e0, eI, e13, hoffm, hs, hIm, ham,
    Nat.mod_add_mod]
  constructor <;> split_ifs <;>
    first
      | omega
      | (simp_all <;> omega)

/-- Helper for C5: the push/pop round trip through the Static segment
(the assembler-resolved symbol `<fs>.<offset>`). -/
theorem pushpop_static (env : String → Nat) (fs : String) (offset : Nat)
    (st : Mach) (e0 : env "SP" = 0) (hsp : 16 ≤ st.ram 0)
    (hram : ∀ i, st.ram i < 65536) :
    (execList env (execList env st (pushAsm fs .Static offset))
        ((popAsm fs .Static offset).getD [])).ram
        (env (fs ++ "." ++ toString offset) % 65536) =
      st.ram (env (fs ++ "." ++ toString offset) % 65536) ∧
    (execList env (execList env st (pushAsm fs .Static offset))
        ((popAsm fs .Static offset).getD [])).ram 0 = st.ram 0 := by
  have h0 := hram 0
  have hs : st.ram 0 % 65536 = st.ram 0 := Nat.mod_eq_of_lt h0
  have hL := hram (env (fs ++ "." ++ toString offset) % 65536)
  have hLm : st.ram (env (fs ++ "." ++ toString offset) % 65536) % 65536 =
      st.ram (env (fs ++ "." ++ toString offset) % 65536) :=
    Nat.mod_eq_of_lt hL
  simp [pushAsm, popAsm, execList, exec, evalComp, setDst, e0, hs, hLm]
  constructor <;> split_ifs <;>
    first
      | omega
      | (simp_all <;> omega)

/-- Helper for C5: the push/pop round trip through the Temp segment
(fixed base 5). -/
theorem pushpop_temp (env : String → Nat) (fs : String) (offset : Nat)
    (st : Mach) (hb : offset ≤ 7) (e0 : env "SP" = 0)
    (hsp : 16 ≤ st.ram 0) (hram : ∀ i, st.ram i < 65536) :
    (execList env (execList env st (pushAsm fs .Temp offset))
        ((popAsm fs .Temp offset).getD [])).ram (5 + offset) =
      st.ram (5 + offset) ∧
    (execList env (execList env st (pushAsm fs .Temp offset))
        ((popAsm fs .Temp offset).getD [])).ram 0 = st.ram 0 := by
  have h0 := hram 0
  have ht := hram (5 + offset)
  have hoff : (5 + offset) % 65536 = 5 + offset := Nat.mod_eq_of_lt (by omega)
  have hs : st.ram 0 % 65536 = st.ram 0 := Nat.mod_eq_of_lt h0
  simp [pushAsm, popAsm, execList, exec, evalComp, setDst, e0, hoff, hs]
  constructor <;> split_ifs <;>
    first
      | omega
      | (simp_all <;> omega)

/-- Helper for C5: the push/pop round trip through the Pointer segment
(offset 0 aliases THIS at address 3, offset 1 aliases THAT at 4). -/
theorem pushpop_pointer (env : String → Nat) (fs : String) (offset : Nat)
    (st : Mach) (hb : offset ≤ 1) (e0 : env "SP" = 0)
    (e3 : env "THIS" = 3) (e4 : env "THAT" = 4)
    (hsp : 16 ≤ st.ram 0) (hram : ∀ i, st.ram i < 65536) :
    (execList env (execList env st (pushAsm fs .Pointer offset))
        ((popAsm fs .Pointer offset).getD [])).ram
        (if offset = 0 then 3 else 4) =
      st.ram (if offset = 0 then 3 else 4) ∧
    (execList env (execList env st (pushAsm fs .Pointer offset))
        ((popAsm fs .Pointer offset).getD [])).ram 0 = st.ram 0 := by
  have h0 := hram 0
  have hs : st.ram 0 % 65536 = st.ram 0 := Nat.mod_eq_of_lt h0
  have h3r := hram 3
  have h4r := hram 4
  have h3rm : st.ram 3 % 65536 = st.ram 3 := Nat.mod_eq_of_lt h3r
  have h4rm : st.ram 4 % 65536 = st.ram 4 := Nat.mod_eq_of_lt h4r
  interval_cases offset <;>
    simp [pushAsm, popAsm, execList, exec, evalComp, setDst, e0, e3, e4,
      hs, h3rm, h4rm] <;>
    constructor <;> split_ifs <;>
    first
      | omega
      | (simp_all <;> omega)

/-- C5: for every segment other than `Constant` and every offset within
the documented bounds, executing the assembly emitted for
`Push(segment, offset)` immediately followed by the assembly emitted for
`Pop(segment, offset)` leaves the value stored at the addressed location
unchanged and leaves the stack pointer (`RAM[0]`) unchanged. The machine
state is assumed well-formed: the standard symbol addresses, a stack
pointer at or above address 16 (the Hack stack lives at 256 and up), and
16-bit RAM contents. -/
theorem push_pop_noop (env : String → Nat) (tst : VMTranslator)
    (segment : MemorySegment) (offset : Nat) (st : Mach)
    (hb : in_bounds segment offset) (he : std_env env)
    (hsp : 16 ≤ st.ram 0) (hram : ∀ i, st.ram i < 65536) :
    ∃ pushIs popIs,
      write_asm tst (.Push segment offset) = some (pushIs, tst) ∧
      write_asm tst (.Pop segment offset) = some (popIs, tst) ∧
      (execList env (execList env st pushIs) popIs).ram
          (seg_target env tst.filestem st segment offset) =
        st.ram (seg_target env tst.filestem st segment offset) ∧
      (execList env (execList env st pushIs) popIs).ram 0 = st.ram 0 := by
  obtain ⟨e0, e1, e2, e3, e4, e13, e14⟩ := he
  cases segment with
  | Constant => exact absurd hb (by simp [in_bounds])
  | Local =>
    exact ⟨_, _, rfl, rfl,
      pushpop_local env tst.filestem offset st hb e0 e1 e13 hsp hram⟩
  | Argument =>
    exact ⟨_, _, rfl, rfl,
      pushpop_argument env tst.filestem offset st hb e0 e2 e13 hsp hram⟩
  | This =>
    exact ⟨_, _, rfl, rfl,
      pushpop_this env tst.filestem offset st hb e0 e3 e13 hsp hram⟩
  | That =>
    exact ⟨_, _, rfl, rfl,
      pushpop_that env tst.filestem offset st hb e0 e4 e13 hsp hram⟩
  | Static =>
    have hbs : offset ≤ 238 := hb
    refine ⟨_, _, ?_, ?_,
      pushpop_static env tst.filestem offset st e0 hsp hram⟩
    · simp only [write_asm,
        show (Command.Push .Static offset).verify_offset =
          decide (offset ≤ 238) from rfl]
      rw [if_pos (by simp only [decide_eq_true_eq]; exact hbs)]
    · simp only [write_asm,
        show (Command.Pop .Static offset).verify_offset =
          decide (offset ≤ 238) from rfl]
      rw [if_pos (by simp only [decide_eq_true_eq]; exact hbs)]
      rfl
  | Temp =>
    have hbt : offset ≤ 7 := hb
    refine ⟨_, _, ?_, ?_,
      pushpop_temp env tst.filestem offset st hbt e0 hsp hram⟩
    · simp only [write_asm,
        show (Command.Push .Temp offset).verify_offset =
          decide (offset ≤ 7) from rfl]
      rw [if_pos (by simp only [decide_eq_true_eq]; exact hbt)]
    · simp only [write_asm,
        show (Command.Pop .Temp offset).verify_offset =
          decide (offset ≤ 7) from rfl]
      rw [if_pos (by simp only [decide_eq_true_eq]; exact hbt)]
      rfl
  | Pointer =>
    have hbp : offset ≤ 1 := hb
    refine ⟨_, _, ?_, ?_,
      pushpop_pointer env tst.filestem offset st hbp e0 e3 e4 hsp hram⟩
    · simp only [write_asm,
        show (Command.Push .Pointer offset).verify_offset =
          decide (offset ≤ 1) from rfl]
      rw [if_pos (by simp only [decide_eq_true_eq]; exact hbp)]
    · simp only [write_asm,
        show (Command.Pop .Pointer offset).verify_offset =
          decide (offset ≤ 1) from rfl]
      rw [if_pos (by simp only [decide_eq_true_eq]; exact hbp)]
      by_cases h0 : offset = 0 <;> simp [popAsm, h0]

/-- Witness for `push_pop_noop`: `push temp 3` then `pop temp 3` on a
concrete machine state. -/
theorem push_pop_noop_witness :
    ∃ pushIs popIs,
      write_asm tst0 (.Push .Temp 3) = some (pushIs, tst0) ∧
      write_asm tst0 (.Pop .Temp 3) = some (popIs, tst0) ∧
      (execList env0 (execList env0 mach0 pushIs) popIs).ram
          (seg_target env0 tst0.filestem mach0 .Temp 3) =
        mach0.ram (seg_target env0 tst0.filestem mach0 .Temp 3) ∧
      (execList env0 (execList env0 mach0 pushIs) popIs).ram 0 =
        mach0.ram 0 :=
  push_pop_noop env0 tst0 .Temp 3 mach0 (show (3 : Nat) ≤ 7 by decide)
    ⟨rfl, rfl, rfl, rfl, rfl, rfl, rfl⟩ (by decide)
    (fun i => by unfold mach0; dsimp only; split <;> omega)

end HackVM
